import Mathlib

/-!
Verification of the line-buffer model of omnitrix-sh/model-editor
(src/buffer.rs), shallowly embedded in Lean.

Strings are modeled as lists of Unicode scalar values (`Str`), but lengths
and column indices are UTF-8 BYTE based, as in the Rust code: `utf8Len`
plays the role of `String::len`, and the byte-position walks `insertAtByte`
and `removeAtByte` model `String::insert` / `String::remove`, including
their panic when the index is inside a multi-byte character.  Fallible
methods return a `RunResult` paired with the post-state of the buffer
(mirroring `&mut self`: the buffer component is the state left behind by the
call, also on the error path).  `RunResult.fault` models a Rust panic
(`Vec::remove` with an out-of-bounds index, or a `String` edit off a char
boundary); a fault aborts before mutating, so the paired buffer is the state
at the moment of the panic.

The filesystem collaborator (`std::fs`) is modeled as an explicit value
threaded through `from_file`, `save` and `save_as`: an association list of
files plus a list of existing directories.  Reads and writes on this
idealized store do not raise `IoError` (I/O failures are environmental and
not decided by the repository's code); existence checks and the missing-path
error are modeled exactly.
-/

deriving instance DecidableEq for Except

namespace ModelEditor

abbrev Str := List Char

def str (s : String) : Str := s.toList

/-- Embeds `enum BufferError` from src/buffer.rs: `FileNotFound(String)`,
`IoError(io::Error)` (payload abstracted to a message), `InvalidLineIndex(usize)`,
`InvalidColumnIndex(usize, usize)`. -/
inductive BufferError where
  | FileNotFound (path : Str)
  | IoError (msg : Str)
  | InvalidLineIndex (index : Nat)
  | InvalidColumnIndex (col : Nat) (line : Nat)
deriving DecidableEq

/-- True exactly for the `FileNotFound` variant (the error "kind"). -/
def BufferError.isFileNotFound : BufferError → Bool
  | .FileNotFound _ => true
  | _ => false

/-- Embeds `struct Buffer { file: Option<String>, lines: Vec<String>, modified: bool }`. -/
structure Buffer where
  file : Option Str
  lines : List Str
  modified : Bool
deriving DecidableEq

/-- Outcome of a Rust method call: normal return, `Err`, or a panic. -/
inductive RunResult (α : Type) where
  | ok (a : α)
  | err (e : BufferError)
  | fault
deriving DecidableEq

/-- Forget the success payload of a `RunResult`. -/
def RunResult.toUnit {α : Type} : RunResult α → RunResult Unit
  | .ok _ => .ok ()
  | .err e => .err e
  | .fault => .fault

/-- The filesystem collaborator: file contents keyed by path, plus the set of
existing directories. -/
structure FS where
  files : List (Str × Str)
  dirs : List Str
deriving DecidableEq

def fsLookup (fs : FS) (p : Str) : Option Str :=
  List.lookup p fs.files

/-- `std::path::Path::exists`: true if `p` names an existing file or directory. -/
def fsExists (fs : FS) (p : Str) : Bool :=
  (fsLookup fs p).isSome || fs.dirs.contains p

def dirExists (fs : FS) (d : Str) : Bool :=
  fs.dirs.contains d

/-- `std::fs::write`: create/overwrite `p` with content `c` (newest entry wins
on lookup). -/
def fsWrite (fs : FS) (p c : Str) : FS :=
  { fs with files := (p, c) :: fs.files }

/-- `std::fs::create_dir_all`: make directory `d` exist (ancestor directories
are not tracked by the model; no operation observes them). -/
def createDirAll (fs : FS) (d : Str) : FS :=
  { fs with dirs := d :: fs.dirs }

/-- `std::fs::read_to_string` on the idealized store: succeeds exactly when
`p` is a file. -/
def readToString (fs : FS) (p : Str) : Except BufferError Str :=
  match fsLookup fs p with
  | some c => .ok c
  | none => .error (.IoError (str "read failed"))

/-- `std::path::Path::parent`, on slash-separated paths: `none` for the empty
path and the root, otherwise the path with its last component removed. -/
def parentPath (p : Str) : Option Str :=
  if p = [] ∨ p = ['/'] then none
  else
    match (p.reverse).dropWhile (fun c => c ≠ '/') with
    | [] => some []
    | ['/'] => some ['/']
    | _ :: tail => some tail.reverse

/-! ### Rust `str::lines` and `[String]::join("\n")`

`str::lines` is `split_inclusive('\n')` followed by stripping a trailing
`'\n'` from each piece and, when a `'\n'` was stripped, also a trailing
`'\r'` before it.  The embedding mirrors that composition. -/

/-- `str::split_inclusive('\n')`: split after every newline, keeping the
newline at the end of each piece; no empty trailing piece, and the empty
string yields no pieces. -/
def splitInclusiveNl : Str → List Str
  | [] => []
  | c :: rest =>
    if c = '\n' then ['\n'] :: splitInclusiveNl rest
    else
      match splitInclusiveNl rest with
      | [] => [[c]]
      | p :: ps => (c :: p) :: ps

/-- Strip one trailing `'\n'`, and if one was stripped also one trailing
`'\r'` before it (the per-line map inside `str::lines`). -/
def stripLineEnd (l : Str) : Str :=
  let r := l.reverse
  if r.head? = some '\n' then
    let r1 := r.tail
    if r1.head? = some '\r' then r1.tail.reverse else r1.reverse
  else l

/-- Rust `str::lines`, collected into a list. -/
def rustLines (s : Str) : List Str :=
  (splitInclusiveNl s).map stripLineEnd

/-- Rust `[String]::join("\n")`: interpose a single newline between lines. -/
def joinNl : List Str → Str
  | [] => []
  | l :: rest => if rest = [] then l else l ++ '\n' :: joinNl rest

/-- Remove one trailing `'\n'` if the string ends with one. -/
def stripTrailingNl : Str → Str
  | [] => []
  | c :: rest => if rest = [] ∧ c = '\n' then [] else c :: stripTrailingNl rest

/-- True when no `'\r'` is immediately followed by `'\n'` anywhere in `s`. -/
def noCRLF : Str → Bool
  | [] => true
  | c :: rest => (!(c == '\r' && rest.head? == some '\n')) && noCRLF rest

/-! ### UTF-8 byte positions

Rust `String::len` is the byte length of the UTF-8 encoding, and
`String::insert` / `String::remove` take byte indices and panic when the
index does not lie on a character boundary.  The walks below mirror that:
they consume `charBytes` bytes per character and fault (return `none`)
inside a multi-byte character. -/

/-- Number of bytes in the UTF-8 encoding of `c` (Rust `char::len_utf8`). -/
def charBytes (c : Char) : Nat :=
  if c.toNat < 0x80 then 1
  else if c.toNat < 0x800 then 2
  else if c.toNat < 0x10000 then 3
  else 4

/-- `String::len`: the UTF-8 byte length. -/
def utf8Len : Str → Nat
  | [] => 0
  | c :: rest => charBytes c + utf8Len rest

/-- `str::is_char_boundary`: `col` is 0, the end, or the start of a
character's encoding. -/
def isCharBoundary (s : Str) (col : Nat) : Bool :=
  if col = 0 then true
  else
    match s with
    | [] => false
    | d :: rest =>
      if col < charBytes d then false
      else isCharBoundary rest (col - charBytes d)

/-- `String::insert` at byte index `col`: `none` models the panic on an index
that is past the end or not on a character boundary. -/
def insertAtByte (s : Str) (col : Nat) (c : Char) : Option Str :=
  if col = 0 then some (c :: s)
  else
    match s with
    | [] => none
    | d :: rest =>
      if col < charBytes d then none
      else (insertAtByte rest (col - charBytes d) c).map (fun r => d :: r)

/-- `String::remove` at byte index `col`: returns the character starting at
`col` and the remaining string; `none` models the panic at or past the end
and off a character boundary. -/
def removeAtByte (s : Str) (col : Nat) : Option (Char × Str) :=
  match s with
  | [] => none
  | d :: rest =>
    if col = 0 then some (d, rest)
    else if col < charBytes d then none
    else (removeAtByte rest (col - charBytes d)).map (fun pr => (pr.1, d :: pr.2))

/-! ### The `Buffer` methods -/

/-- `Buffer::from_file`.  With a path: error if the path does not exist, else
read the file and split it with `str::lines`; with no path: a single empty
line.  `modified` starts `false`. -/
def Buffer.from_file (fs : FS) (file : Option Str) : Except BufferError Buffer :=
  match file with
  | some file_path =>
    if fsExists fs file_path then
      match readToString fs file_path with
      | .error e => .error e
      | .ok content => .ok { file := some file_path, lines := rustLines content, modified := false }
    else .error (.FileNotFound file_path)
  | none => .ok { file := none, lines := [[]], modified := false }

/-- `Buffer::len`: the number of lines. -/
def Buffer.len (b : Buffer) : Nat := b.lines.length

/-- `Buffer::get_line` / `get_line_mut`: the line at `index`, or
`InvalidLineIndex`. -/
def Buffer.get_line (b : Buffer) (index : Nat) : Except BufferError Str :=
  match b.lines[index]? with
  | some s => .ok s
  | none => .error (.InvalidLineIndex index)

/-- `Buffer::line_length`: the `String::len` (UTF-8 byte length) of the line
at `index`. -/
def Buffer.line_length (b : Buffer) (index : Nat) : Except BufferError Nat :=
  (b.get_line index).map utf8Len

/-- `Buffer::display_name`. -/
def Buffer.display_name (b : Buffer) : Str :=
  match b.file with
  | some path => path
  | none => str "[No Name]"

/-- `Buffer::insert_char`: look up the line (`InvalidLineIndex` if absent),
reject `col > line.len()` (byte length) with `InvalidColumnIndex`, then
`String::insert` — which PANICS when `col` is not on a character boundary —
and set `modified`. -/
def Buffer.insert_char (b : Buffer) (line col : Nat) (c : Char) :
    RunResult Unit × Buffer :=
  match b.get_line line with
  | .error e => (.err e, b)
  | .ok line_content =>
    if utf8Len line_content < col then (.err (.InvalidColumnIndex col line), b)
    else
      match insertAtByte line_content col c with
      | some s2 => (.ok (), { b with lines := b.lines.set line s2, modified := true })
      | none => (.fault, b)

/-- `Buffer::remove_char`: look up the line, reject `col >= line.len()`
(byte length) with `InvalidColumnIndex`, then `String::remove` — which
PANICS when `col` is not on a character boundary — returning the removed
character and setting `modified`. -/
def Buffer.remove_char (b : Buffer) (line col : Nat) :
    RunResult Char × Buffer :=
  match b.get_line line with
  | .error e => (.err e, b)
  | .ok line_content =>
    if utf8Len line_content ≤ col then (.err (.InvalidColumnIndex col line), b)
    else
      match removeAtByte line_content col with
      | some (removed, s2) =>
        (.ok removed, { b with lines := b.lines.set line s2, modified := true })
      | none => (.fault, b)

/-- `Buffer::join_with_previous_line`: reject `line_index == 0`; then
`Vec::remove(line_index)` — which PANICS when `line_index` is out of bounds
(`RunResult.fault`) — then append the removed line onto line
`line_index - 1` (the `?` on `get_line_mut` is modeled faithfully, error
state included), set `modified`, and return the previous line's byte length
from before the append. -/
def Buffer.join_with_previous_line (b : Buffer) (line_index : Nat) :
    RunResult Nat × Buffer :=
  if line_index = 0 then (.err (.InvalidLineIndex line_index), b)
  else
    if h : line_index < b.lines.length then
      let current_line := b.lines.get ⟨line_index, h⟩
      let b1 : Buffer := { b with lines := b.lines.eraseIdx line_index }
      match b1.get_line (line_index - 1) with
      | .error e => (.err e, b1)
      | .ok previous_line =>
        (.ok (utf8Len previous_line),
         { b1 with
           lines := b1.lines.set (line_index - 1) (previous_line ++ current_line),
           modified := true })
    else (.fault, b)

/-- `Buffer::delete_line`: error on an empty buffer; with exactly one line,
clear line 0 (keep a single empty line) without checking `index`; otherwise
bounds-check `index` and remove the line.  `modified` is set on both success
paths. -/
def Buffer.delete_line (b : Buffer) (index : Nat) : RunResult Unit × Buffer :=
  if b.lines.length = 0 then (.err (.InvalidLineIndex index), b)
  else if b.lines.length = 1 then
    (.ok (), { b with lines := b.lines.set 0 [], modified := true })
  else if b.lines.length ≤ index then (.err (.InvalidLineIndex index), b)
  else (.ok (), { b with lines := b.lines.eraseIdx index, modified := true })

/-- `Buffer::save`: requires `self.file` (else `FileNotFound("No file path
set")`), then writes `lines.join("\n")` to it.  Takes `&self`: the buffer is
returned unchanged. -/
def Buffer.save (fs : FS) (b : Buffer) : RunResult Unit × FS × Buffer :=
  match b.file with
  | none => (.err (.FileNotFound (str "No file path set")), fs, b)
  | some file_path => (.ok (), fsWrite fs file_path (joinNl b.lines), b)

/-- `Buffer::save_as`: if the target path exists, write and set `file`;
otherwise take the parent (`FileNotFound("Invalid path")` if none), create
it, write, set `file`, and clear `modified` — only on this branch. -/
def Buffer.save_as (fs : FS) (b : Buffer) (file_path : Str) :
    RunResult Unit × FS × Buffer :=
  if fsExists fs file_path then
    (.ok (), fsWrite fs file_path (joinNl b.lines), { b with file := some file_path })
  else
    match parentPath file_path with
    | none => (.err (.FileNotFound (str "Invalid path")), fs, b)
    | some parent =>
      (.ok (),
       fsWrite (createDirAll fs parent) file_path (joinNl b.lines),
       { b with file := some file_path, modified := false })

/-! ### Mutation operations packaged for invariant statements -/

/-- One mutating call on a buffer. -/
inductive Op where
  | insert (line col : Nat) (c : Char)
  | remove (line col : Nat)
  | join (line_index : Nat)
  | delete (index : Nat)

/-- Run one mutating call, keeping outcome and post-state. -/
def applyOp (b : Buffer) (op : Op) : RunResult Unit × Buffer :=
  match op with
  | .insert line col c =>
    let r := b.insert_char line col c
    (r.1.toUnit, r.2)
  | .remove line col =>
    let r := b.remove_char line col
    (r.1.toUnit, r.2)
  | .join line_index =>
    let r := b.join_with_previous_line line_index
    (r.1.toUnit, r.2)
  | .delete index =>
    let r := b.delete_line index
    (r.1.toUnit, r.2)

/-- Run a sequence of mutating calls, keeping each post-state. -/
def applyOps (b : Buffer) (ops : List Op) : Buffer :=
  ops.foldl (fun b op => (applyOp b op).2) b

/-! ### Helper lemmas -/

theorem splitInclusiveNl_eq_nil_iff (s : Str) : splitInclusiveNl s = [] ↔ s = [] := by
  cases s with
  | nil => simp [splitInclusiveNl]
  | cons c rest =>
    simp only [splitInclusiveNl]
    constructor
    · intro h
      by_cases hc : c = '\n'
      · simp [hc] at h
      · rw [if_neg hc] at h
        cases hsp : splitInclusiveNl rest with
        | nil => rw [hsp] at h; simp at h
        | cons p ps => rw [hsp] at h; simp at h
    · intro h; exact absurd h (by simp)

theorem splitInclusiveNl_head (s p : Str) (ps : List Str)
    (h : splitInclusiveNl s = p :: ps) : s.head? = p.head? := by
  cases s with
  | nil => simp [splitInclusiveNl] at h
  | cons d r2 =>
    simp only [splitInclusiveNl] at h
    by_cases hd : d = '\n'
    · rw [if_pos hd] at h
      obtain ⟨h1, _⟩ := List.cons.inj h
      rw [← h1, hd]
      rfl
    · rw [if_neg hd] at h
      cases hsp : splitInclusiveNl r2 with
      | nil =>
        rw [hsp] at h
        simp only [] at h
        obtain ⟨h1, _⟩ := List.cons.inj h
        rw [← h1]
        rfl
      | cons q qs =>
        rw [hsp] at h
        simp only [] at h
        obtain ⟨h1, _⟩ := List.cons.inj h
        rw [← h1]
        rfl

theorem lines_eq_singleton_of_length_one (b : Buffer) (h : b.lines.length = 1) :
    ∃ l, b.lines = [l] := by
  cases hb : b.lines with
  | nil => rw [hb] at h; simp at h
  | cons x xs =>
    cases xs with
    | nil => exact ⟨x, rfl⟩
    | cons y ys => rw [hb] at h; simp at h

/-! ### Claim theorems -/

/-- C10: when the buffer has exactly one line, `delete_line(index)` succeeds
for EVERY index value — the single-line branch clears line 0 and sets
`modified` without any bounds check on `index`. -/
theorem C10_delete_line_single_no_bounds_check (b : Buffer) (index : Nat)
    (h : b.len = 1) :
    b.delete_line index = (.ok (), { b with lines := [[]], modified := true }) := by
  obtain ⟨l, hl⟩ := lines_eq_singleton_of_length_one b h
  simp [Buffer.delete_line, hl]

theorem C10_witness :
    (Buffer.mk none [str "hello"] false).len = 1 ∧
    (Buffer.mk none [str "hello"] false).delete_line 99 =
      (.ok (), { Buffer.mk none [str "hello"] false with lines := [[]], modified := true }) :=
  ⟨rfl, C10_delete_line_single_no_bounds_check (Buffer.mk none [str "hello"] false) 99 rfl⟩

/-- C8: `delete_line(0)` on a one-line buffer clears the line (keeping
`line_count() == 1`) and sets `modified`; on a multi-line buffer with a valid
index, `delete_line(index)` removes the line, shrinking the count by one, and
sets `modified`. -/
theorem C8_delete_line_semantics :
    (∀ b : Buffer, b.len = 1 →
      b.delete_line 0 = (.ok (), { b with lines := [[]], modified := true }) ∧
      ({ b with lines := ([[]] : List Str), modified := true } : Buffer).len = 1) ∧
    (∀ (b : Buffer) (index : Nat), 2 ≤ b.len → index < b.len →
      b.delete_line index =
        (.ok (), { b with lines := b.lines.eraseIdx index, modified := true }) ∧
      (b.lines.eraseIdx index).length = b.len - 1) := by
  constructor
  · intro b h
    obtain ⟨l, hl⟩ := lines_eq_singleton_of_length_one b h
    constructor
    · simp [Buffer.delete_line, hl]
    · simp [Buffer.len]
  · intro b index h2 hidx
    constructor
    · have h0 : ¬ b.lines.length = 0 := by unfold Buffer.len at h2; omega
      have h1 : ¬ b.lines.length = 1 := by unfold Buffer.len at h2; omega
      have h3 : ¬ b.lines.length ≤ index := by unfold Buffer.len at hidx; omega
      simp [Buffer.delete_line, h0, h1, h3]
    · exact List.length_eraseIdx_of_lt hidx

theorem C8_witness :
    (Buffer.mk none [str "hello"] false).delete_line 0 =
      (.ok (), Buffer.mk none [[]] true) ∧
    (Buffer.mk none [str "ab", str "cd", str "ef"] false).delete_line 1 =
      (.ok (), Buffer.mk none [str "ab", str "ef"] true) ∧
    (Buffer.mk none [str "ab", str "cd", str "ef"] false).len - 1 = 2 := by
  refine ⟨?_, ?_, rfl⟩
  · have h := (C8_delete_line_semantics.1 (Buffer.mk none [str "hello"] false) rfl).1
    exact h
  · have h := (C8_delete_line_semantics.2 (Buffer.mk none [str "ab", str "cd", str "ef"] false) 1
      (by decide) (by decide)).1
    exact h

/-- C3: the claim says `join_with_previous_line(line_index)` returns
`InvalidLineIndex` whenever `line_index == 0` OR `line_index >= line_count()`.
The code only checks `line_index == 0`; for an in-bounds-violating positive
index it calls `Vec::remove`, which panics.  On the one-line buffer `["a"]`,
`join_with_previous_line(1)` faults instead of returning an error, while
`join_with_previous_line(0)` does return `InvalidLineIndex` as documented. -/
theorem C3_join_out_of_range_panics :
    Buffer.join_with_previous_line (Buffer.mk none [str "a"] false) 1 =
      (.fault, Buffer.mk none [str "a"] false) ∧
    Buffer.join_with_previous_line (Buffer.mk none [str "a"] false) 0 =
      (.err (.InvalidLineIndex 0), Buffer.mk none [str "a"] false) :=
  ⟨rfl, rfl⟩

/-- C9 fails as stated: the code has no distinct `NoDestination` error kind.
`save()` on a path-less buffer returns `FileNotFound("No file path set")` —
the very same `FileNotFound` variant that `from_file` returns for a missing
source path. -/
theorem C9_counterexample :
    (Buffer.save (FS.mk [] []) (Buffer.mk none [[]] false)).1 =
      .err (.FileNotFound (str "No file path set")) ∧
    Buffer.from_file (FS.mk [] []) (some (str "x")) =
      .error (.FileNotFound (str "x")) ∧
    (BufferError.FileNotFound (str "No file path set")).isFileNotFound = true ∧
    (BufferError.FileNotFound (str "x")).isFileNotFound = true :=
  ⟨rfl, rfl, rfl, rfl⟩

/-- C9 amended: for every buffer with no associated source path, `save()`
fails with `FileNotFound("No file path set")` — the same error kind used for
a missing source on load, distinguished only by its message — and performs no
write (the filesystem is returned unchanged, and the buffer untouched). -/
theorem C9_save_no_path (fs : FS) (b : Buffer) (h : b.file = none) :
    Buffer.save fs b = (.err (.FileNotFound (str "No file path set")), fs, b) := by
  simp [Buffer.save, h]

theorem C9_witness :
    Buffer.save (FS.mk [(str "f", str "x")] []) (Buffer.mk none [str "y"] true) =
      (.err (.FileNotFound (str "No file path set")),
       FS.mk [(str "f", str "x")] [], Buffer.mk none [str "y"] true) :=
  C9_save_no_path (FS.mk [(str "f", str "x")] []) (Buffer.mk none [str "y"] true) rfl

/-- C2 fails as stated: loading an existing file whose content is empty does
NOT produce a single empty line.  Rust's `str::lines` on `""` yields no lines
at all, so the buffer has zero lines, not one. -/
theorem C2_counterexample :
    Buffer.from_file (FS.mk [(str "f", [])] []) (some (str "f")) =
      .ok (Buffer.mk (some (str "f")) [] false) ∧
    (Buffer.mk (some (str "f")) [] false).len ≠ 1 ∧
    (Buffer.mk (some (str "f")) [] false).lines ≠ [[]] :=
  ⟨rfl, by decide, by decide⟩

/-- C2 amended: for every existing source path whose content is the empty
string, `from_file` succeeds and produces a buffer whose `lines` sequence is
EMPTY (`line_count() == 0`), not a single empty line. -/
theorem C2_from_file_empty_content (fs : FS) (p : Str)
    (h : fsLookup fs p = some []) :
    Buffer.from_file fs (some p) = .ok (Buffer.mk (some p) [] false) := by
  have hex : fsExists fs p = true := by simp [fsExists, h]
  simp [Buffer.from_file, hex, readToString, h, rustLines, splitInclusiveNl]

theorem C2_witness :
    Buffer.from_file (FS.mk [(str "g", [])] [str "d"]) (some (str "g")) =
      .ok (Buffer.mk (some (str "g")) [] false) :=
  C2_from_file_empty_content (FS.mk [(str "g", [])] [str "d"]) (str "g") rfl

/-- C6 fails as stated: the branch of `save_as` that clears `modified` is
selected by "the target path does not exist", not by "the parent directory
needed creating".  Saving to a fresh file inside an ALREADY existing
directory `d` still clears `modified`. -/
theorem C6_counterexample :
    dirExists (FS.mk [] [str "d"]) (str "d") = true ∧
    parentPath (str "d/f") = some (str "d") ∧
    (Buffer.mk none [str "x"] true).modified = true ∧
    (Buffer.save_as (FS.mk [] [str "d"]) (Buffer.mk none [str "x"] true) (str "d/f")).1 =
      .ok () ∧
    (Buffer.save_as (FS.mk [] [str "d"]) (Buffer.mk none [str "x"] true) (str "d/f")).2.2.modified =
      false :=
  ⟨rfl, rfl, rfl, rfl, rfl⟩

/-- C6 amended: a `save()` call leaves the buffer — in particular its
`modified` flag and source path — unchanged, and a successful
`save_as(new_path)` sets the source to `new_path` and clears `modified`
exactly in the branch where the TARGET PATH does not already exist, leaving
`modified` unchanged when the target exists. -/
theorem C6_save_modified_flag (fs : FS) (b : Buffer) (p : Str) :
    (Buffer.save fs b).2.2 = b ∧
    ((Buffer.save_as fs b p).1 = .ok () →
      (Buffer.save_as fs b p).2.2.file = some p ∧
      (Buffer.save_as fs b p).2.2.modified =
        (if fsExists fs p then b.modified else false)) := by
  constructor
  · cases hb : b.file <;> simp [Buffer.save, hb]
  · intro hok
    by_cases hex : fsExists fs p = true
    · simp [Buffer.save_as, hex]
    · have hex' : fsExists fs p = false := by
        cases hfe : fsExists fs p
        · rfl
        · exact absurd hfe hex
      simp only [Buffer.save_as, hex', Bool.false_eq_true, if_false] at hok ⊢
      cases hpar : parentPath p with
      | none => rw [hpar] at hok; exact RunResult.noConfusion hok
      | some parent => exact ⟨rfl, rfl⟩

theorem C6_witness :
    (Buffer.save (FS.mk [] []) (Buffer.mk (some (str "s")) [str "x"] true)).2.2 =
      Buffer.mk (some (str "s")) [str "x"] true ∧
    (Buffer.save_as (FS.mk [(str "t", str "old")] [])
        (Buffer.mk none [str "x"] true) (str "t")).2.2.file = some (str "t") ∧
    (Buffer.save_as (FS.mk [(str "t", str "old")] [])
        (Buffer.mk none [str "x"] true) (str "t")).2.2.modified = true := by
  have h1 := (C6_save_modified_flag (FS.mk [] [])
    (Buffer.mk (some (str "s")) [str "x"] true) (str "q")).1
  have h2 := (C6_save_modified_flag (FS.mk [(str "t", str "old")] [])
    (Buffer.mk none [str "x"] true) (str "t")).2 rfl
  exact ⟨h1, h2.1, by rw [h2.2]; rfl⟩

/-- C4: any of the four mutating calls that returns `Err` leaves the buffer —
lines, source path and `modified` flag — exactly as it was (bounds checks
happen before any mutation; the one error that can be raised after a
`Vec::remove`, the `?` on `get_line_mut` inside the join, is unreachable). -/
theorem C4_error_returns_leave_buffer_unchanged (b : Buffer) (op : Op)
    (e : BufferError) (h : (applyOp b op).1 = .err e) : (applyOp b op).2 = b := by
  cases op with
  | insert line col c =>
    simp only [applyOp, Buffer.insert_char] at h ⊢
    cases hg : b.get_line line with
    | error e1 => simp [hg]
    | ok s =>
      simp only [hg] at h ⊢
      by_cases hcol : utf8Len s < col
      · simp [hcol]
      · simp only [if_neg hcol] at h ⊢
        cases hins : insertAtByte s col c with
        | none => simp [hins, RunResult.toUnit] at h
        | some s2 => simp [hins, RunResult.toUnit] at h
  | remove line col =>
    simp only [applyOp, Buffer.remove_char] at h ⊢
    cases hg : b.get_line line with
    | error e1 => simp [hg]
    | ok s =>
      simp only [hg] at h ⊢
      by_cases hcol : utf8Len s ≤ col
      · simp [hcol]
      · simp only [if_neg hcol] at h ⊢
        cases hrm : removeAtByte s col with
        | none => simp [hrm, RunResult.toUnit] at h
        | some pr =>
          obtain ⟨c2, s2⟩ := pr
          simp [hrm, RunResult.toUnit] at h
  | join i =>
    simp only [applyOp, Buffer.join_with_previous_line] at h ⊢
    by_cases h0 : i = 0
    · simp [h0]
    · simp only [if_neg h0] at h ⊢
      by_cases hlt : i < b.lines.length
      · rw [dif_pos hlt] at h ⊢
        cases hg : Buffer.get_line { b with lines := b.lines.eraseIdx i } (i - 1) with
        | error e1 =>
          exfalso
          unfold Buffer.get_line at hg
          cases hx : ({ b with lines := b.lines.eraseIdx i } : Buffer).lines[i - 1]? with
          | some s => rw [hx] at hg; simp at hg
          | none =>
            have hlen := List.getElem?_eq_none_iff.mp hx
            simp only [List.length_eraseIdx_of_lt hlt] at hlen
            omega
        | ok prev =>
          simp only [hg] at h
          simp [RunResult.toUnit] at h
      · rw [dif_neg hlt] at h
        simp [RunResult.toUnit] at h
  | delete idx =>
    simp only [applyOp, Buffer.delete_line] at h ⊢
    by_cases h0 : b.lines.length = 0
    · simp [h0]
    · simp only [if_neg h0] at h ⊢
      by_cases h1 : b.lines.length = 1
      · simp [h1, RunResult.toUnit] at h
      · simp only [if_neg h1] at h ⊢
        by_cases h2 : b.lines.length ≤ idx
        · simp [h2]
        · simp [h2, RunResult.toUnit] at h

theorem C4_witness :
    (applyOp (Buffer.mk none [str "ab"] false) (Op.insert 0 7 'z')).1 =
      .err (.InvalidColumnIndex 7 0) ∧
    (applyOp (Buffer.mk none [str "ab"] false) (Op.insert 0 7 'z')).2 =
      Buffer.mk none [str "ab"] false :=
  ⟨rfl, C4_error_returns_leave_buffer_unchanged (Buffer.mk none [str "ab"] false)
    (Op.insert 0 7 'z') (.InvalidColumnIndex 7 0) rfl⟩

theorem rustLines_length_pos (content : Str) (h : content ≠ []) :
    1 ≤ (rustLines content).length := by
  have hsp : splitInclusiveNl content ≠ [] :=
    fun hh => h ((splitInclusiveNl_eq_nil_iff content).mp hh)
  have : 0 < (splitInclusiveNl content).length := List.length_pos.mpr hsp
  simpa [rustLines] using this

theorem applyOp_len_pos (b : Buffer) (op : Op) (h : 1 ≤ b.len) :
    1 ≤ ((applyOp b op).2).len := by
  cases op with
  | insert line col c =>
    simp only [applyOp, Buffer.insert_char]
    cases hg : b.get_line line with
    | error e => simpa [hg] using h
    | ok s =>
      simp only [hg]
      by_cases hcol : utf8Len s < col
      · simpa [hcol] using h
      · simp only [if_neg hcol]
        cases hins : insertAtByte s col c with
        | none => simpa [hins] using h
        | some s2 => simpa [hins, Buffer.len] using h
  | remove line col =>
    simp only [applyOp, Buffer.remove_char]
    cases hg : b.get_line line with
    | error e => simpa [hg] using h
    | ok s =>
      simp only [hg]
      by_cases hcol : utf8Len s ≤ col
      · simpa [hcol] using h
      · simp only [if_neg hcol]
        cases hrm : removeAtByte s col with
        | none => simpa [hrm] using h
        | some pr =>
          obtain ⟨c2, s2⟩ := pr
          simpa [hrm, Buffer.len] using h
  | join i =>
    simp only [applyOp, Buffer.join_with_previous_line]
    by_cases h0 : i = 0
    · simpa [h0] using h
    · simp only [if_neg h0]
      by_cases hlt : i < b.lines.length
      · rw [dif_pos hlt]
        cases hg : Buffer.get_line { b with lines := b.lines.eraseIdx i } (i - 1) with
        | error e =>
          simp only [hg, Buffer.len, List.length_eraseIdx_of_lt hlt]
          omega
        | ok prev =>
          simp only [hg, Buffer.len, List.length_set, List.length_eraseIdx_of_lt hlt]
          omega
      · rw [dif_neg hlt]
        simpa using h
  | delete idx =>
    simp only [applyOp, Buffer.delete_line]
    by_cases h0 : b.lines.length = 0
    · simpa [h0] using h
    · simp only [if_neg h0]
      by_cases h1 : b.lines.length = 1
      · simp [h1, Buffer.len]
      · simp only [if_neg h1]
        by_cases h2 : b.lines.length ≤ idx
        · simpa [h2] using h
        · simp only [if_neg h2]
          simp only [Buffer.len, List.length_eraseIdx_of_lt (by omega : idx < b.lines.length)]
          omega

theorem applyOps_len_pos (ops : List Op) (b : Buffer) (h : 1 ≤ b.len) :
    1 ≤ (applyOps b ops).len := by
  induction ops generalizing b with
  | nil => simpa [applyOps] using h
  | cons op rest ih =>
    have h1 : applyOps b (op :: rest) = applyOps ((applyOp b op).2) rest := rfl
    rw [h1]
    exact ih _ (applyOp_len_pos b op h)

/-- C1 fails as stated: construction is included in the claim, and loading an
existing but EMPTY file succeeds with zero lines (`str::lines` of `""` is
empty), so `line_count() >= 1` does not hold after that construction. -/
theorem C1_counterexample :
    Buffer.from_file (FS.mk [(str "e", [])] []) (some (str "e")) =
      .ok (Buffer.mk (some (str "e")) [] false) ∧
    ¬ 1 ≤ (Buffer.mk (some (str "e")) [] false).len :=
  ⟨rfl, by decide⟩

/-- C1 amended: `line_count() >= 1` holds after construction with no source
and after construction from NONEMPTY content, and is preserved by every
mutation call (`insert_char`, `remove_char`, `join_with_previous_line`,
`delete_line`) and by every sequence of such calls — including repeated
`delete_line(0)` on a single-line buffer; construction from an empty file,
however, yields `line_count() == 0`. -/
theorem C1_line_count_invariant :
    (∀ fs, Buffer.from_file fs none = .ok (Buffer.mk none [[]] false)) ∧
    (∀ (fs : FS) (p content : Str), fsLookup fs p = some content → content ≠ [] →
      Buffer.from_file fs (some p) = .ok (Buffer.mk (some p) (rustLines content) false) ∧
      1 ≤ (rustLines content).length) ∧
    (∀ (b : Buffer) (op : Op), 1 ≤ b.len → 1 ≤ ((applyOp b op).2).len) ∧
    (∀ (b : Buffer) (ops : List Op), 1 ≤ b.len → 1 ≤ (applyOps b ops).len) := by
  refine ⟨fun fs => rfl, ?_, applyOp_len_pos, fun b ops h => applyOps_len_pos ops b h⟩
  intro fs p content hl hne
  have hex : fsExists fs p = true := by simp [fsExists, hl]
  constructor
  · simp [Buffer.from_file, hex, readToString, hl]
  · exact rustLines_length_pos content hne

theorem C1_witness :
    Buffer.from_file (FS.mk [(str "h", str "x")] []) (some (str "h")) =
      .ok (Buffer.mk (some (str "h")) [str "x"] false) ∧
    1 ≤ (applyOps (Buffer.mk none [[]] false)
          [Op.delete 0, Op.delete 0, Op.insert 0 0 'a', Op.delete 0]).len := by
  constructor
  · exact (C1_line_count_invariant.2.1 (FS.mk [(str "h", str "x")] [])
      (str "h") (str "x") rfl (by decide)).1
  · exact C1_line_count_invariant.2.2.2 (Buffer.mk none [[]] false)
      [Op.delete 0, Op.delete 0, Op.insert 0 0 'a', Op.delete 0] (by decide)

theorem charBytes_pos (c : Char) : 1 ≤ charBytes c := by
  unfold charBytes
  split_ifs <;> omega

theorem isCharBoundary_le (s : Str) (col : Nat) (h : isCharBoundary s col = true) :
    col ≤ utf8Len s := by
  induction s generalizing col with
  | nil =>
    by_cases h0 : col = 0
    · subst h0; simp [utf8Len]
    · simp only [isCharBoundary, if_neg h0] at h
      simp at h
  | cons d rest ih =>
    by_cases h0 : col = 0
    · subst h0; simp
    · simp only [isCharBoundary, if_neg h0] at h
      by_cases hlt : col < charBytes d
      · rw [if_pos hlt] at h; simp at h
      · rw [if_neg hlt] at h
        have := ih (col - charBytes d) h
        simp only [utf8Len]
        omega

theorem insertAtByte_isSome (s : Str) (col : Nat) (c : Char) :
    (insertAtByte s col c).isSome = isCharBoundary s col := by
  induction s generalizing col with
  | nil =>
    by_cases h0 : col = 0 <;> simp [insertAtByte, isCharBoundary, h0]
  | cons d rest ih =>
    by_cases h0 : col = 0
    · simp [insertAtByte, isCharBoundary, h0]
    · by_cases hlt : col < charBytes d
      · simp [insertAtByte, isCharBoundary, h0, hlt]
      · simp only [insertAtByte, isCharBoundary, if_neg h0, if_neg hlt]
        rw [← ih (col - charBytes d)]
        cases insertAtByte rest (col - charBytes d) c <;> rfl

theorem removeAtByte_isSome (s : Str) (col : Nat) :
    (removeAtByte s col).isSome =
      (isCharBoundary s col && decide (col < utf8Len s)) := by
  induction s generalizing col with
  | nil =>
    by_cases h0 : col = 0 <;> simp [removeAtByte, isCharBoundary, utf8Len, h0]
  | cons d rest ih =>
    by_cases h0 : col = 0
    · subst h0
      have hpos := charBytes_pos d
      have hlt : 0 < utf8Len (d :: rest) := by
        simp only [utf8Len]
        omega
      simp [removeAtByte, isCharBoundary, hlt]
    · by_cases hlt : col < charBytes d
      · simp [removeAtByte, isCharBoundary, h0, hlt]
      · simp only [removeAtByte, isCharBoundary, if_neg h0, if_neg hlt]
        have harith : decide (col - charBytes d < utf8Len rest) =
            decide (col < utf8Len (d :: rest)) := by
          have hu : utf8Len (d :: rest) = charBytes d + utf8Len rest := rfl
          rw [hu]
          exact decide_eq_decide.mpr (by omega)
        calc ((removeAtByte rest (col - charBytes d)).map
                (fun pr => (pr.1, d :: pr.2))).isSome
            = (removeAtByte rest (col - charBytes d)).isSome := by
              cases removeAtByte rest (col - charBytes d) <;> rfl
          _ = (isCharBoundary rest (col - charBytes d) &&
                decide (col - charBytes d < utf8Len rest)) := ih _
          _ = (isCharBoundary rest (col - charBytes d) &&
                decide (col < utf8Len (d :: rest))) := by rw [harith]

/-- C7 fails as stated: line lengths are UTF-8 BYTE lengths, and a column
within the byte length need not lie on a character boundary.  On the line
`"é"` (one character, two bytes) `line_length` is 2, yet `insert_char` at
column 1 — which satisfies `col ≤ line_length` — panics inside
`String::insert` instead of succeeding, and `remove_char` at column 1 —
which satisfies `col < line_length` — panics inside `String::remove`. -/
theorem C7_counterexample :
    (Buffer.mk none [str "é"] false).line_length 0 = .ok 2 ∧
    ((Buffer.mk none [str "é"] false).insert_char 0 1 'x') =
      (.fault, Buffer.mk none [str "é"] false) ∧
    ((Buffer.mk none [str "é"] false).remove_char 0 1) =
      (.fault, Buffer.mk none [str "é"] false) :=
  ⟨rfl, rfl, rfl⟩

/-- C7 amended: with a valid line index and `line_length` being the UTF-8
byte length, `insert_char` succeeds exactly when `col ≤ line_length(line)`
AND `col` lies on a character boundary; it fails with `InvalidColumnIndex`
when `col` exceeds the byte length, and panics (faults, leaving the buffer
unchanged) on an in-range `col` that is not a boundary.  `remove_char`
succeeds exactly when `col < line_length(line)` and `col` lies on a
character boundary, returning the character starting at that byte and
setting `modified = true`; it fails with `InvalidColumnIndex` when
`col ≥ line_length(line)` and panics on an in-range non-boundary `col`. -/
theorem C7_column_validity (b : Buffer) (line col : Nat) (ch : Char) (s : Str)
    (hs : b.lines[line]? = some s) :
    b.line_length line = .ok (utf8Len s) ∧
    ((b.insert_char line col ch).1 = .ok () ↔
      col ≤ utf8Len s ∧ isCharBoundary s col = true) ∧
    (utf8Len s < col →
      b.insert_char line col ch = (.err (.InvalidColumnIndex col line), b)) ∧
    (col ≤ utf8Len s → isCharBoundary s col = false →
      b.insert_char line col ch = (.fault, b)) ∧
    (∀ s2, insertAtByte s col ch = some s2 →
      b.insert_char line col ch =
        (.ok (), { b with lines := b.lines.set line s2, modified := true })) ∧
    ((∃ c2, (b.remove_char line col).1 = .ok c2) ↔
      col < utf8Len s ∧ isCharBoundary s col = true) ∧
    (utf8Len s ≤ col →
      b.remove_char line col = (.err (.InvalidColumnIndex col line), b)) ∧
    (col < utf8Len s → isCharBoundary s col = false →
      b.remove_char line col = (.fault, b)) ∧
    (∀ c2 s2, removeAtByte s col = some (c2, s2) →
      b.remove_char line col =
        (.ok c2, { b with lines := b.lines.set line s2, modified := true })) := by
  have hg : b.get_line line = .ok s := by simp [Buffer.get_line, hs]
  refine ⟨?_, ?_, ?_, ?_, ?_, ?_, ?_, ?_, ?_⟩
  · simp only [Buffer.line_length, hg]
    rfl
  · constructor
    · intro h
      by_cases hcol : utf8Len s < col
      · simp [Buffer.insert_char, hg, hcol] at h
      · simp only [Buffer.insert_char, hg, if_neg hcol] at h
        cases hins : insertAtByte s col ch with
        | none => rw [hins] at h; simp at h
        | some s2 =>
          have hb : isCharBoundary s col = true := by
            rw [← insertAtByte_isSome s col ch, hins]; rfl
          exact ⟨Nat.not_lt.mp hcol, hb⟩
    · rintro ⟨h1, h2⟩
      have hnc : ¬ utf8Len s < col := Nat.not_lt.mpr h1
      have hsome : (insertAtByte s col ch).isSome = true := by
        rw [insertAtByte_isSome, h2]
      cases hins : insertAtByte s col ch with
      | none => rw [hins] at hsome; simp at hsome
      | some s2 => simp [Buffer.insert_char, hg, hnc, hins]
  · intro h
    simp [Buffer.insert_char, hg, h]
  · intro h1 h2
    have hnc : ¬ utf8Len s < col := Nat.not_lt.mpr h1
    have hnone : insertAtByte s col ch = none := by
      cases hx : insertAtByte s col ch with
      | none => rfl
      | some s2 =>
        have hb : (insertAtByte s col ch).isSome = true := by rw [hx]; rfl
        rw [insertAtByte_isSome, h2] at hb
        simp at hb
    simp [Buffer.insert_char, hg, hnc, hnone]
  · intro s2 hins
    have hb : isCharBoundary s col = true := by
      rw [← insertAtByte_isSome s col ch, hins]; rfl
    have hle := isCharBoundary_le s col hb
    simp [Buffer.insert_char, hg, Nat.not_lt.mpr hle, hins]
  · constructor
    · rintro ⟨c2, h⟩
      by_cases hcol : utf8Len s ≤ col
      · simp [Buffer.remove_char, hg, hcol] at h
      · simp only [Buffer.remove_char, hg, if_neg hcol] at h
        cases hrm : removeAtByte s col with
        | none => rw [hrm] at h; simp at h
        | some pr =>
          have hsome : (removeAtByte s col).isSome = true := by rw [hrm]; rfl
          rw [removeAtByte_isSome] at hsome
          simp only [Bool.and_eq_true, decide_eq_true_eq] at hsome
          exact ⟨hsome.2, hsome.1⟩
    · rintro ⟨h1, h2⟩
      have hsome : (removeAtByte s col).isSome = true := by
        rw [removeAtByte_isSome, h2]
        simp [h1]
      cases hrm : removeAtByte s col with
      | none => rw [hrm] at hsome; simp at hsome
      | some pr =>
        obtain ⟨c2, s2⟩ := pr
        refine ⟨c2, ?_⟩
        simp [Buffer.remove_char, hg, Nat.not_le.mpr h1, hrm]
  · intro h
    simp [Buffer.remove_char, hg, h]
  · intro h1 h2
    have hnone : removeAtByte s col = none := by
      cases hx : removeAtByte s col with
      | none => rfl
      | some pr =>
        have hb : (removeAtByte s col).isSome = true := by rw [hx]; rfl
        rw [removeAtByte_isSome, h2] at hb
        simp at hb
    simp [Buffer.remove_char, hg, Nat.not_le.mpr h1, hnone]
  · intro c2 s2 hrm
    have hsome : (removeAtByte s col).isSome = true := by rw [hrm]; rfl
    rw [removeAtByte_isSome] at hsome
    simp only [Bool.and_eq_true, decide_eq_true_eq] at hsome
    simp [Buffer.remove_char, hg, Nat.not_le.mpr hsome.2, hrm]

theorem C7_witness :
    (Buffer.mk none [str "ab"] false).line_length 0 = .ok 2 ∧
    (Buffer.mk none [str "ab"] false).insert_char 0 2 'c' =
      (.ok (), Buffer.mk none [str "abc"] true) ∧
    (Buffer.mk none [str "ab"] false).insert_char 0 3 'c' =
      (.err (.InvalidColumnIndex 3 0), Buffer.mk none [str "ab"] false) ∧
    (Buffer.mk none [str "ab"] false).remove_char 0 1 =
      (.ok 'b', Buffer.mk none [str "a"] true) ∧
    (Buffer.mk none [str "ab"] false).remove_char 0 2 =
      (.err (.InvalidColumnIndex 2 0), Buffer.mk none [str "ab"] false) ∧
    (Buffer.mk none [str "é"] false).insert_char 0 1 'c' =
      (.fault, Buffer.mk none [str "é"] false) := by
  refine ⟨?_, ?_, ?_, ?_, ?_, ?_⟩
  · exact (C7_column_validity (Buffer.mk none [str "ab"] false) 0 0 'c'
      (str "ab") rfl).1
  · exact (C7_column_validity (Buffer.mk none [str "ab"] false) 0 2 'c'
      (str "ab") rfl).2.2.2.2.1 (str "abc") (by decide)
  · exact (C7_column_validity (Buffer.mk none [str "ab"] false) 0 3 'c'
      (str "ab") rfl).2.2.1 (by decide)
  · exact (C7_column_validity (Buffer.mk none [str "ab"] false) 0 1 'c'
      (str "ab") rfl).2.2.2.2.2.2.2.2 'b' (str "a") (by decide)
  · exact (C7_column_validity (Buffer.mk none [str "ab"] false) 0 2 'c'
      (str "ab") rfl).2.2.2.2.2.2.1 (by decide)
  · exact (C7_column_validity (Buffer.mk none [str "é"] false) 0 1 'c'
      (str "é") rfl).2.2.2.1 (by decide) (by decide)

theorem noCRLF_cons (c : Char) (rest : Str) (h : noCRLF (c :: rest) = true) :
    ¬(c = '\r' ∧ rest.head? = some '\n') ∧ noCRLF rest = true := by
  simp only [noCRLF, Bool.and_eq_true, Bool.not_eq_true'] at h
  obtain ⟨h1, h2⟩ := h
  refine ⟨?_, h2⟩
  rintro ⟨rfl, hh⟩
  rw [hh] at h1
  simp at h1

theorem stripLineEnd_cons (c : Char) (p : Str) (hp : p ≠ [])
    (h : ¬(c = '\r' ∧ p = ['\n'])) :
    stripLineEnd (c :: p) = c :: stripLineEnd p := by
  cases hq : p.reverse with
  | nil => exact absurd (by simpa using congrArg List.reverse hq) hp
  | cons d ds =>
    have hrev : (c :: p).reverse = d :: (ds ++ [c]) := by
      rw [List.reverse_cons, hq, List.cons_append]
    by_cases hd : d = '\n'
    · subst hd
      cases ds with
      | nil =>
        have hpp : p = ['\n'] := by
          have h2 := congrArg List.reverse hq
          simpa using h2
        have hc : ¬ c = '\r' := fun hh => h ⟨hh, hpp⟩
        subst hpp
        simp [stripLineEnd, hc]
      | cons e es =>
        by_cases he : e = '\r'
        · subst he
          simp [stripLineEnd, hrev, hq]
        · simp [stripLineEnd, hrev, hq, he]
    · have h1 : stripLineEnd (c :: p) = c :: p := by
        simp [stripLineEnd, hrev, hd]
      have h2 : stripLineEnd p = p := by
        simp [stripLineEnd, hq, hd]
      rw [h1, h2]

theorem joinNl_cons_cons (c : Char) (x : Str) (L : List Str) :
    joinNl ((c :: x) :: L) = c :: joinNl (x :: L) := by
  by_cases hL : L = []
  · subst hL; simp [joinNl]
  · simp [joinNl, hL]

/-- The composition law behind the round trip: on CRLF-free content, joining
the Rust-split lines with a single newline gives back the content minus one
trailing newline. -/
theorem joinNl_rustLines (s : Str) (h : noCRLF s = true) :
    joinNl (rustLines s) = stripTrailingNl s := by
  induction s with
  | nil => rfl
  | cons c rest ih =>
    obtain ⟨hcr, hrest⟩ := noCRLF_cons c rest h
    by_cases hc : c = '\n'
    · subst hc
      by_cases hr : rest = []
      · subst hr; rfl
      · have hsp : splitInclusiveNl rest ≠ [] :=
          fun hh => hr ((splitInclusiveNl_eq_nil_iff rest).mp hh)
        have h2 : rustLines rest ≠ [] := by
          simp only [rustLines]
          intro hh
          exact hsp (List.map_eq_nil_iff.mp hh)
        have hse : stripLineEnd ['\n'] = [] := rfl
        have h1 : rustLines ('\n' :: rest) = [] :: rustLines rest := by
          simp [rustLines, splitInclusiveNl, hse]
        rw [h1]
        have h3 : joinNl ([] :: rustLines rest) = '\n' :: joinNl (rustLines rest) := by
          simp [joinNl, h2]
        rw [h3, ih hrest]
        simp [stripTrailingNl, hr]
    · cases hsp : splitInclusiveNl rest with
      | nil =>
        have hr : rest = [] := (splitInclusiveNl_eq_nil_iff rest).mp hsp
        subst hr
        have h1 : rustLines [c] = [[c]] := by
          simp [rustLines, splitInclusiveNl, hc, stripLineEnd]
        rw [h1]
        simp [joinNl, stripTrailingNl, hc]
      | cons p ps =>
        have hr : rest ≠ [] := by
          intro hh
          rw [hh] at hsp
          exact absurd hsp.symm (by simp [splitInclusiveNl])
        have hph : rest.head? = p.head? := splitInclusiveNl_head rest p ps hsp
        have hpne : p ≠ [] := by
          intro hh
          rw [hh] at hph
          cases rest with
          | nil => exact hr rfl
          | cons d r2 => simp at hph
        have hguard : ¬(c = '\r' ∧ p = ['\n']) := by
          rintro ⟨rfl, hh2⟩
          exact hcr ⟨rfl, by rw [hph, hh2]; rfl⟩
        have h1 : rustLines (c :: rest) =
            stripLineEnd (c :: p) :: List.map stripLineEnd ps := by
          simp [rustLines, splitInclusiveNl, hc, hsp]
        have h4 : stripLineEnd p :: List.map stripLineEnd ps = rustLines rest := by
          simp [rustLines, hsp]
        rw [h1, stripLineEnd_cons c p hpne hguard, joinNl_cons_cons, h4, ih hrest]
        simp [stripTrailingNl, hr]

theorem stripTrailingNl_self_or (s : Str) :
    stripTrailingNl s = s ∨ s = stripTrailingNl s ++ ['\n'] := by
  induction s with
  | nil => exact Or.inl rfl
  | cons c rest ih =>
    by_cases hc : rest = [] ∧ c = '\n'
    · obtain ⟨h1, h2⟩ := hc
      subst h1; subst h2
      right; rfl
    · have he : stripTrailingNl (c :: rest) = c :: stripTrailingNl rest := by
        simp [stripTrailingNl, hc]
      cases ih with
      | inl h => left; rw [he, h]
      | inr h =>
        right
        rw [he, List.cons_append, ← h]

theorem fsLookup_fsWrite (fs : FS) (p c : Str) :
    fsLookup (fsWrite fs p c) p = some c := by
  simp [fsLookup, fsWrite, List.lookup]

/-- C5 fails as stated: content containing a CRLF does not round-trip modulo
a trailing newline.  `str::lines` silently drops the `'\r'` of `"a\r\nb"`, so
the saved content is `"a\nb"` — a change beyond a trailing newline. -/
theorem C5_counterexample :
    Buffer.from_file (FS.mk [(str "f", str "a\r\nb")] []) (some (str "f")) =
      .ok (Buffer.mk (some (str "f")) [str "a", str "b"] false) ∧
    fsLookup (Buffer.save (FS.mk [(str "f", str "a\r\nb")] [])
        (Buffer.mk (some (str "f")) [str "a", str "b"] false)).2.1 (str "f") =
      some (str "a\nb") ∧
    str "a\nb" ≠ str "a\r\nb" ∧
    str "a\r\nb" ≠ str "a\nb" ++ ['\n'] :=
  ⟨rfl, rfl, by decide, by decide⟩

/-- C5 amended: for every file content that contains no CRLF sequence,
loading it and saving it back without edits writes the loaded lines rejoined
with a single `'\n'` and no trailing newline, which is byte-identical to the
original modulo a possibly absent trailing newline.  (Content with `"\r\n"`
loses the `'\r'`, as the counterexample shows.) -/
theorem C5_round_trip (fs : FS) (p content : Str)
    (hl : fsLookup fs p = some content) (hcr : noCRLF content = true) :
    Buffer.from_file fs (some p) =
      .ok (Buffer.mk (some p) (rustLines content) false) ∧
    fsLookup (Buffer.save fs (Buffer.mk (some p) (rustLines content) false)).2.1 p =
      some (joinNl (rustLines content)) ∧
    (joinNl (rustLines content) = content ∨
      content = joinNl (rustLines content) ++ ['\n']) := by
  have hex : fsExists fs p = true := by simp [fsExists, hl]
  refine ⟨?_, ?_, ?_⟩
  · simp [Buffer.from_file, hex, readToString, hl]
  · simp [Buffer.save, fsLookup_fsWrite]
  · rw [joinNl_rustLines content hcr]
    exact stripTrailingNl_self_or content

theorem C5_witness :
    Buffer.from_file (FS.mk [(str "w", str "hi\n")] []) (some (str "w")) =
      .ok (Buffer.mk (some (str "w")) [str "hi"] false) ∧
    fsLookup (Buffer.save (FS.mk [(str "w", str "hi\n")] [])
        (Buffer.mk (some (str "w")) [str "hi"] false)).2.1 (str "w") =
      some (str "hi") ∧
    (str "hi" = str "hi\n" ∨ str "hi\n" = str "hi" ++ ['\n']) :=
  C5_round_trip (FS.mk [(str "w", str "hi\n")] []) (str "w") (str "hi\n") rfl (by decide)

end ModelEditor
